import Mathlib

/-!
# Verification of the BabChess search core (fork)

A shallow embedding of the search-support code of the repository:

* `src/engine.h`   — `SearchLimits`, `SearchData` time/node budget helpers,
  killer-move table update.
* `src/movepicker.h` — staged move picker (`MovePicker::enumerate`,
  `scoreEvasion`, `scoreTactical`, `scoreQuiet`).
* `src/perft.cpp`  — divide / non-divide perft node counters.

Machine integers are modelled as `Nat`/`Int`; moves are modelled as plain
values with `0` playing the role of `MOVE_NONE`.  External collaborators that
are not part of the repository sources (the `Position` facility, the attack
bitboard generator, the legal-move generator) are modelled abstractly, as
parameters or, where a concrete semantics is needed, modelled from the
specification.
-/

namespace BabChess

/-! ## engine.h : SearchLimits and the budget helpers

`TimeMs` is a millisecond count (`int64_t` in the source, always non-negative
here since it measures remaining time or an elapsed duration); we model it as
`Nat`.  `Move` is an opaque encoding; we model it as `Nat`, with `0` as the
`MOVE_NONE` sentinel.  The `searchMoves` list of `SearchLimits` plays no role
in any of the functions embedded below and is omitted from the record. -/

abbrev TimeMs := Nat
abbrev Move := Nat

/-- `MOVE_NONE`, the "no move" sentinel. -/
def MOVE_NONE : Move := 0

/-- `SearchLimits` (engine.h:13-21).  `timeLeft[WHITE]`/`timeLeft[BLACK]` are
split into two fields; all fields default to zero as in the source. -/
structure SearchLimits where
  timeLeftW : TimeMs := 0
  timeLeftB : TimeMs := 0
  incrementW : TimeMs := 0
  incrementB : TimeMs := 0
  movesToGo : Nat := 0
  maxDepth : Nat := 0
  maxNodes : Nat := 0
  maxTime : TimeMs := 0
deriving DecidableEq, Repr

/-- `SearchData::useTournamentTime` (engine.h:37).  The source computes
`!!(limits.timeLeft[WHITE] | limits.timeLeft[WHITE])` — note that it reads the
WHITE entry twice. -/
def useTournamentTime (l : SearchLimits) : Bool :=
  (l.timeLeftW ||| l.timeLeftW) != 0

/-- Modelled from the spec: the intended `useTournamentTime`, testing
`timeLeft[WHITE] | timeLeft[BLACK]` ("at least one side has nonzero time
remaining"); the duplicated WHITE read in the source is flagged by the spec as
a slip. -/
def useTournamentTimeSpec (l : SearchLimits) : Bool :=
  (l.timeLeftW ||| l.timeLeftB) != 0

/-- `SearchData::useFixedTime` (engine.h:38): `limits.maxTime > 0`. -/
def useFixedTime (l : SearchLimits) : Bool :=
  l.maxTime > 0

/-- `SearchData::useNodeCountLimit` (engine.h:40): `limits.maxNodes > 0`. -/
def useNodeCountLimit (l : SearchLimits) : Bool :=
  l.maxNodes > 0

/-- `SearchData::useTimeLimit` (engine.h:39).  The source body is
`useTournamentTime() || useTimeLimit()` — it calls *itself* in the second
disjunct.  We embed the recursion with explicit fuel: `none` means the call
has not returned within the given number of recursive steps (for every fuel,
i.e. the C++ call never returns). -/
def useTimeLimitFuel : Nat → SearchLimits → Option Bool
  | 0, _ => none
  | fuel + 1, l =>
    if useTournamentTime l then some true
    else useTimeLimitFuel fuel l

/-- Modelled from the spec: the intended `useTimeLimit`, i.e.
`useTournamentTime() || useFixedTime()` ("any of tournament or fixed time"). -/
def useTimeLimitSpec (l : SearchLimits) : Bool :=
  useTournamentTime l || useFixedTime l

/-- `SearchData::shouldStop` (engine.h:42-56).  The mutable state it reads —
`nbNodes`, the elapsed wall-clock time `now() - startTime`, and
`allocatedTime` — are passed as arguments. -/
def shouldStop (l : SearchLimits) (allocatedTime : TimeMs)
    (nbNodes : Nat) (elapsed : TimeMs) : Bool :=
  if nbNodes % 1024 != 0 then false
  else if useTournamentTime l && decide (elapsed ≥ allocatedTime) then true
  else if useFixedTime l && decide (elapsed > l.maxTime) then true
  else if useNodeCountLimit l && decide (nbNodes ≥ l.maxNodes) then true
  else false

/-- The stop condition exactly as the claim states it: fixed-time uses
`elapsed ≥ limits.maxTime` (non-strict). -/
def shouldStopClaim (l : SearchLimits) (allocatedTime : TimeMs)
    (nbNodes : Nat) (elapsed : TimeMs) : Prop :=
  nbNodes % 1024 = 0 ∧
    ((useTournamentTime l = true ∧ elapsed ≥ allocatedTime) ∨
     (useFixedTime l = true ∧ elapsed ≥ l.maxTime) ∨
     (useNodeCountLimit l = true ∧ nbNodes ≥ l.maxNodes))

instance (l a n e) : Decidable (shouldStopClaim l a n e) := by
  unfold shouldStopClaim; infer_instance

/-! ## engine.h : killer table update -/

/-- `SearchData::updateKillers` (engine.h:62-67), acting on the pair of killer
slots at one ply: if slot 0 differs from the new move, slot 0 shifts to
slot 1 and the move becomes slot 0; otherwise nothing changes. -/
def updateKillers (k : Move × Move) (m : Move) : Move × Move :=
  if k.1 ≠ m then (m, k.1) else k

/-! ## Theorems about the budget helpers (claims C3, C4, C5) -/

/-- C3, counterexample: with `maxTime = 5`, `allocatedTime = 0`, `nbNodes = 0`
and `elapsed = 5`, the claim's condition holds (fixed time in use and
`elapsed ≥ maxTime`) yet `shouldStop` returns `false`, because the source
compares `elapsed > limits.maxTime` strictly (engine.h:50). -/
theorem shouldStop_claim_false_at_boundary :
    ¬ (shouldStop { maxTime := 5 } 0 0 5 = true ↔
        shouldStopClaim { maxTime := 5 } 0 0 5) := by
  decide

/-- C3, amended: `shouldStop` returns `true` iff `nbNodes` is a multiple of
1024 and (tournament time is in use and `elapsed ≥ allocatedTime`, or fixed
time is in use and `elapsed > limits.maxTime` — strictly —, or a node limit is
in use and `nbNodes ≥ limits.maxNodes`); with all limit fields zero it always
returns `false`. -/
theorem shouldStop_iff :
    (∀ (l : SearchLimits) (a n e : Nat), shouldStop l a n e = true ↔
      (n % 1024 = 0 ∧
        ((useTournamentTime l = true ∧ a ≤ e) ∨
         (useFixedTime l = true ∧ l.maxTime < e) ∨
         (useNodeCountLimit l = true ∧ l.maxNodes ≤ n)))) ∧
    (∀ a n e, shouldStop {} a n e = false) := by
  constructor
  · intro l a n e
    unfold shouldStop
    split_ifs with h1 h2 h3 h4 <;> simp_all
  · intro a n e
    unfold shouldStop useTournamentTime useFixedTime useNodeCountLimit
    simp

/-- C4: `useTimeLimit` (engine.h:39) calls itself in place of
`useFixedTime()`; on any limits where `useTournamentTime()` is false — e.g.
`timeLeft` both zero and `maxTime = 100` — the recursion never returns
(`none` for every fuel), whereas the intended semantics
(`useTournamentTime() || useFixedTime()`) gives `true` there. -/
theorem useTimeLimit_diverges :
    (∀ fuel, useTimeLimitFuel fuel { maxTime := 100 } = none) ∧
    useTimeLimitSpec { maxTime := 100 } = true := by
  constructor
  · intro fuel
    induction fuel with
    | zero => rfl
    | succ n ih => simpa [useTimeLimitFuel, useTournamentTime] using ih
  · decide

/-- C5: `useTournamentTime` (engine.h:37) reads `timeLeft[WHITE]` twice, so
with `timeLeft[WHITE] = 0` and `timeLeft[BLACK] = 100` it returns `false`,
while the claimed semantics ("at least one side has nonzero time remaining")
gives `true`. -/
theorem useTournamentTime_ignores_black :
    useTournamentTime { timeLeftB := 100 } = false ∧
    useTournamentTimeSpec { timeLeftB := 100 } = true := by
  decide

/-! ## Theorems about the killer table (claim C6) -/

/-- C6: `updateKillers` preserves the killer-distinctness invariant: if the
two slots are distinct whenever both are non-`NONE`, then after the update
they still are; moreover if the new move differs from slot 0 the slots become
`(m, old slot 0)`, and if it equals slot 0 the table is unchanged. -/
theorem updateKillers_spec (k0 k1 m : Move)
    (h : k0 ≠ MOVE_NONE → k1 ≠ MOVE_NONE → k0 ≠ k1) :
    ((updateKillers (k0, k1) m).1 ≠ MOVE_NONE →
      (updateKillers (k0, k1) m).2 ≠ MOVE_NONE →
      (updateKillers (k0, k1) m).1 ≠ (updateKillers (k0, k1) m).2) ∧
    (m ≠ k0 → updateKillers (k0, k1) m = (m, k0)) ∧
    (m = k0 → updateKillers (k0, k1) m = (k0, k1)) := by
  by_cases hm : k0 = m
  · subst hm
    have hr : updateKillers (k0, k1) k0 = (k0, k1) := by simp [updateKillers]
    rw [hr]
    exact ⟨h, fun hne => absurd rfl hne, fun _ => rfl⟩
  · have hr : updateKillers (k0, k1) m = (m, k0) := by simp [updateKillers, hm]
    rw [hr]
    exact ⟨fun _ _ heq => hm heq.symm, fun _ => rfl,
      fun heq => absurd heq.symm hm⟩

/-- C6, witness: the killer pair `(2, 3)` updated with move `5` becomes
`(5, 2)`. -/
theorem updateKillers_spec_witness : updateKillers (2, 3) 5 = (5, 2) :=
  (updateKillers_spec 2 3 5 (by decide)).2.1 (by decide)

/-! ## perft.cpp : divide and non-divide node counters

`perft` (perft.cpp:11-49) only consumes the `Position` facility through legal
move enumeration and the `doMove`/`undoMove` member-pointer pairs passed to
the callback; we abstract that interface as a `Game`.  The position is passed
by reference and mutated in the C++, so the embedding threads it explicitly:
`perftF`/`perftD` return the node count together with the position as left
behind by the call.  The side-to-move template parameter only selects which
`doMove`/`undoMove` specializations are handed to the callback and is
absorbed into the `Game` interface; the `Div` output to `cout` does not
affect the count and is dropped. -/

/-- The slice of the external `Position` interface that `perft` consumes. -/
structure Game where
  Pos : Type
  moves : Pos → List Move
  doMove : Pos → Move → Pos
  undoMove : Pos → Move → Pos

/-- `perft<false, Me>` (perft.cpp:11-49, with `Div = false`): at
`depth <= 1` it counts the legal moves without touching the position;
otherwise it makes each move, recurses at `depth - 1`, and unmakes. -/
def perftF (G : Game) (d : Int) (p : G.Pos) : Nat × G.Pos :=
  if d ≤ 1 then ((G.moves p).length, p)
  else
    (G.moves p).foldl
      (fun acc m =>
        let r := perftF G (d - 1) (G.doMove acc.2 m)
        (acc.1 + r.1, G.undoMove r.2 m))
      (0, p)
termination_by d.toNat
decreasing_by omega

/-- The loop body shared by the `depth >= 2` paths of both perft variants. -/
def perftStep (G : Game) (d : Int) (acc : Nat × G.Pos) (m : Move) :
    Nat × G.Pos :=
  let r := perftF G (d - 1) (G.doMove acc.2 m)
  (acc.1 + r.1, G.undoMove r.2 m)

/-- `perft<true, Me>` (perft.cpp:11-49, with `Div = true`): no `depth <= 1`
shortcut; at `depth == 1` each move contributes `1` without being made, and
otherwise each move is made, searched with `perft<false>` at `depth - 1`, and
unmade. -/
def perftD (G : Game) (d : Int) (p : G.Pos) : Nat × G.Pos :=
  (G.moves p).foldl
    (fun acc m =>
      if d = 1 then (acc.1 + 1, acc.2)
      else
        let r := perftF G (d - 1) (G.doMove acc.2 m)
        (acc.1 + r.1, G.undoMove r.2 m))
    (0, p)

theorem perftF_of_le (G : Game) {d : Int} (h : d ≤ 1) (p : G.Pos) :
    perftF G d p = ((G.moves p).length, p) := by
  rw [perftF, if_pos h]

theorem perftF_of_gt (G : Game) {d : Int} (h : ¬ d ≤ 1) (p : G.Pos) :
    perftF G d p = (G.moves p).foldl (perftStep G d) (0, p) := by
  rw [perftF, if_neg h]
  rfl

/-- Restoration: under the do/undo inverse contract, `perft<false>` leaves
the position exactly as it found it. -/
theorem perftF_snd (G : Game)
    (H : ∀ p m, m ∈ G.moves p → G.undoMove (G.doMove p m) m = p) :
    ∀ (k : Nat) (d : Int), d.toNat ≤ k → ∀ p : G.Pos, (perftF G d p).2 = p := by
  intro k
  induction k with
  | zero =>
    intro d hd p
    have h1 : d ≤ 1 := by omega
    rw [perftF_of_le G h1]
  | succ k ih =>
    intro d hd p
    by_cases h1 : d ≤ 1
    · rw [perftF_of_le G h1]
    · rw [perftF_of_gt G h1]
      have aux : ∀ (l : List Move), (∀ m ∈ l, m ∈ G.moves p) →
          ∀ n : Nat, (l.foldl (perftStep G d) (n, p)).2 = p := by
        intro l
        induction l with
        | nil => intro _ n; rfl
        | cons m t iht =>
          intro hl n
          have hrec : (perftF G (d - 1) (G.doMove p m)).2 = G.doMove p m :=
            ih (d - 1) (by omega) _
          have hstep : perftStep G d (n, p) m =
              (n + (perftF G (d - 1) (G.doMove p m)).1, p) := by
            show (n + (perftF G (d - 1) (G.doMove p m)).1,
              G.undoMove (perftF G (d - 1) (G.doMove p m)).2 m) = _
            rw [hrec, H p m (hl m (List.mem_cons_self m t))]
          rw [List.foldl_cons, hstep]
          exact iht (fun x hx => hl x (List.mem_cons_of_mem m hx)) _
      exact aux (G.moves p) (fun _ hx => hx) 0

/-- C9: for every depth `d ≥ 1`, the divide and non-divide perft variants
return the same node total, and (under the do/undo inverse contract) both
leave the position equal to its entry state. -/
theorem perft_div_nondiv_agree (G : Game)
    (H : ∀ p m, m ∈ G.moves p → G.undoMove (G.doMove p m) m = p)
    (d : Int) (hd : 1 ≤ d) (p : G.Pos) :
    perftD G d p = perftF G d p ∧ (perftF G d p).2 = p ∧
      (perftD G d p).2 = p := by
  have hsnd : (perftF G d p).2 = p := perftF_snd G H d.toNat d le_rfl p
  have hmain : perftD G d p = perftF G d p := by
    by_cases h1 : d = 1
    · subst h1
      have hF : perftF G 1 p = ((G.moves p).length, p) :=
        perftF_of_le G le_rfl p
      have hext : perftD G 1 p = (G.moves p).foldl
          (fun (acc : Nat × G.Pos) (_ : Move) => (acc.1 + 1, acc.2)) (0, p) :=
        List.foldl_ext _ _ (0, p) (fun acc b _ => if_pos rfl)
      have aux : ∀ (l : List Move) (n : Nat),
          l.foldl (fun (acc : Nat × G.Pos) (_ : Move) => (acc.1 + 1, acc.2))
            (n, p) = (n + l.length, p) := by
        intro l
        induction l with
        | nil => intro n; simp
        | cons m t iht =>
          intro n
          rw [List.foldl_cons, iht]
          simp [Nat.add_assoc, Nat.add_comm 1 t.length]
      rw [hext, aux (G.moves p) 0, hF]
      simp
    · have h2 : ¬ d ≤ 1 := by omega
      have hext : perftD G d p =
          (G.moves p).foldl (perftStep G d) (0, p) :=
        List.foldl_ext _ _ (0, p) (fun acc b _ => if_neg h1)
      rw [hext, ← perftF_of_gt G h2]
  exact ⟨hmain, hsnd, hmain ▸ hsnd⟩

/-- A tiny concrete `Game` used to witness the perft theorems: positions are
stacks of played moves, two moves are always available. -/
def toyGame : Game where
  Pos := List Move
  moves := fun _ => [7, 8]
  doMove := fun p m => m :: p
  undoMove := fun p _ => p.tail

/-- C9, witness: at depth 2 from the empty toy position both variants return
4 nodes and restore the position. -/
theorem perft_div_nondiv_agree_witness :
    perftD toyGame 2 [] = perftF toyGame 2 [] ∧
      (perftF toyGame 2 ([] : List Move)).2 = [] ∧
      (perftD toyGame 2 ([] : List Move)).2 = [] :=
  perft_div_nondiv_agree toyGame (fun _ _ _ => rfl) 2 (by norm_num) []

/-- Instrumented variant of a `Game` whose position carries a counter bumped
by every `doMove` and every `undoMove`. -/
def Game.withLog (G : Game) : Game where
  Pos := G.Pos × Nat
  moves := fun pc => G.moves pc.1
  doMove := fun pc m => (G.doMove pc.1 m, pc.2 + 1)
  undoMove := fun pc m => (G.undoMove pc.1 m, pc.2 + 1)

/-- C10: for every depth `d ≤ 1` (including 0 and negative depths), the
non-divide `perft<false>` returns the number of legal moves of the position —
not 1 — with the position unchanged, and (by instrumentation) performs no
`doMove`/`undoMove` at all. -/
theorem perft_nondiv_depth_le_one (G : Game) (d : Int) (hd : d ≤ 1)
    (p : G.Pos) :
    perftF G d p = ((G.moves p).length, p) ∧
      ∀ c : Nat, (perftF G.withLog d (p, c)).2.2 = c := by
  refine ⟨perftF_of_le G hd p, fun c => ?_⟩
  rw [perftF_of_le G.withLog hd (p, c)]

/-- C10, witness: at depth 0 the toy game has 2 legal moves, `perft<false>`
returns 2, and the do/undo counter stays at 0. -/
theorem perft_nondiv_depth_le_one_witness :
    perftF toyGame 0 [] = (2, []) ∧
      ∀ c : Nat, (perftF toyGame.withLog 0 ([], c)).2.2 = c :=
  perft_nondiv_depth_le_one toyGame 0 (by norm_num) []

/-! ## A concrete board model for `scoreQuiet` (movepicker.h:189-233)

`scoreQuiet` reads the position through external accessors (`getPieceAt`,
`getPiecesBB`, the threat bitboards) and the external attack generator
(`attacks<PT>(sq, occupied)`, `pawnAttacks<Me>`), all declared in `chess.h` /
`position.h`, which are not part of the sources.  Squares are `0..63` with
`square = rank * 8 + file`; bitboards are `Nat` bit masks. -/

inductive Side where
  | White
  | Black
deriving DecidableEq, Repr

/-- `~Me`: the other side. -/
def Side.flip : Side → Side
  | .White => .Black
  | .Black => .White

/-- Modelled from the spec: the standard piece-type enumeration of `chess.h`
(not in the sources), with `NO_PIECE_TYPE` for an empty square and the
conventional codes `PAWN = 1 .. KING = 6`, `NB_PIECE_TYPE = 7`. -/
inductive PieceType where
  | NO_PIECE_TYPE
  | PAWN
  | KNIGHT
  | BISHOP
  | ROOK
  | QUEEN
  | KING
deriving DecidableEq, Repr

/-- The integer code of a piece type (`(int)pt` in the source). -/
def PieceType.code : PieceType → Int
  | .NO_PIECE_TYPE => 0
  | .PAWN => 1
  | .KNIGHT => 2
  | .BISHOP => 3
  | .ROOK => 4
  | .QUEEN => 5
  | .KING => 6

/-- `NB_PIECE_TYPE`. -/
def NB_PIECE_TYPE : Int := 7

/-- Modelled from the spec: leaper attack set from the external attack
generator — the union of the in-board squares reached by the given
(file, rank) offsets. -/
def offsetBB (sq : Nat) (offs : List (Int × Int)) : Nat :=
  offs.foldl
    (fun acc d =>
      let f : Int := (sq % 8 : Nat) + d.1
      let r : Int := (sq / 8 : Nat) + d.2
      if 0 ≤ f ∧ f ≤ 7 ∧ 0 ≤ r ∧ r ≤ 7 then acc ||| (1 <<< (r * 8 + f).toNat)
      else acc)
    0

/-- Modelled from the spec: one sliding-attack ray from square
`(f, r)` in direction `(df, dr)`, stopping at the board edge or at (and
including) the first occupied square of `occ`. -/
def shootRay (occ : Nat) (df dr : Int) : Nat → Int → Int → Nat
  | 0, _, _ => 0
  | fuel + 1, f, r =>
    let f' := f + df
    let r' := r + dr
    if 0 ≤ f' ∧ f' ≤ 7 ∧ 0 ≤ r' ∧ r' ≤ 7 then
      let sq := (r' * 8 + f').toNat
      if occ.testBit sq then 1 <<< sq
      else (1 <<< sq) ||| shootRay occ df dr fuel f' r'
    else 0

/-- Modelled from the spec: the sliding attack set along a list of
directions. -/
def slidingAttacks (dirs : List (Int × Int)) (sq : Nat) (occ : Nat) : Nat :=
  dirs.foldl
    (fun acc d => acc ||| shootRay occ d.1 d.2 7 (sq % 8 : Nat) (sq / 8 : Nat))
    0

/-- `attacks<KNIGHT>(sq, occ)` (occupancy is irrelevant for a leaper). -/
def knightAttacks (sq : Nat) : Nat :=
  offsetBB sq [(1, 2), (2, 1), (2, -1), (1, -2), (-1, -2), (-2, -1), (-2, 1), (-1, 2)]

/-- `attacks<BISHOP>(sq, occ)`. -/
def bishopAttacks (sq : Nat) (occ : Nat) : Nat :=
  slidingAttacks [(1, 1), (1, -1), (-1, 1), (-1, -1)] sq occ

/-- `attacks<ROOK>(sq, occ)`. -/
def rookAttacks (sq : Nat) (occ : Nat) : Nat :=
  slidingAttacks [(1, 0), (-1, 0), (0, 1), (0, -1)] sq occ

/-- `attacks<QUEEN>(sq, occ)`. -/
def queenAttacks (sq : Nat) (occ : Nat) : Nat :=
  bishopAttacks sq occ ||| rookAttacks sq occ

/-- `pawnAttacks<Me>(bb(sq))`: the squares a pawn of side `Me` on `sq`
attacks. -/
def pawnAttacksSq (me : Side) (sq : Nat) : Nat :=
  match me with
  | .White => offsetBB sq [(-1, 1), (1, 1)]
  | .Black => offsetBB sq [(-1, -1), (1, -1)]

/-- The move-type tag of the `Move` encoding (`moveType(m)`); `scoreQuiet`
only tests for `PROMOTION`. -/
inductive MoveKind where
  | NORMAL
  | PROMOTION
  | EN_PASSANT
  | CASTLING
deriving DecidableEq, Repr

/-- A decoded move, as seen through `moveFrom` / `moveTo` / `moveType`. -/
structure QMove where
  fromSq : Nat
  toSq : Nat
  kind : MoveKind
deriving DecidableEq, Repr

/-- The slice of the external `Position` that `scoreQuiet` reads.  `board`
is `getPieceAt`; occupancy and the enemy-king bitboard are derived from it
below; the three threat bitboards are opaque external facilities. -/
structure QuietCtx where
  board : Nat → Option (Side × PieceType)
  threatenedByPawns : Nat
  threatenedByMinors : Nat
  threatenedByRooks : Nat

/-- `pieceType(pos.getPieceAt(sq))`. -/
def QuietCtx.pieceTypeAt (ctx : QuietCtx) (sq : Nat) : PieceType :=
  match ctx.board sq with
  | none => .NO_PIECE_TYPE
  | some p => p.2

/-- `pos.getPiecesBB()`: the occupancy bitboard. -/
def QuietCtx.occ (ctx : QuietCtx) : Nat :=
  (List.range 64).foldl
    (fun acc s => if (ctx.board s).isSome then acc ||| (1 <<< s) else acc) 0

/-- `pos.getPiecesBB(side, KING)`: the king bitboard of `side`. -/
def QuietCtx.kingBB (ctx : QuietCtx) (side : Side) : Nat :=
  (List.range 64).foldl
    (fun acc s =>
      if ctx.board s = some (side, .KING) then acc ||| (1 <<< s) else acc) 0

/-- The part of `scoreQuiet` (movepicker.h:190-203) before the check-bonus
switch: the base score `NB_PIECE_TYPE - (int)pt` plus the threat-evasion
bonus for a piece standing on a square of `threatenedPieces`. -/
def scoreQuietBase (ctx : QuietCtx) (threatenedPieces : Nat)
    (m : QMove) : Int :=
  let pt := ctx.pieceTypeAt m.fromSq
  let score : Int := NB_PIECE_TYPE - pt.code
  if threatenedPieces.testBit m.fromSq then
    score +
      (if pt = .QUEEN ∧ ¬ ctx.threatenedByRooks.testBit m.toSq then 1000
       else if pt = .ROOK ∧ ¬ ctx.threatenedByMinors.testBit m.toSq then 500
       else if (pt = .BISHOP ∨ pt = .KNIGHT) ∧
           ¬ ctx.threatenedByPawns.testBit m.toSq then 300
       else 0)
  else score

/-- `MovePicker::scoreQuiet` (movepicker.h:189-233).  Note the `switch`
fall-through: the `BISHOP` case continues into the `ROOK` and `QUEEN` cases
and the `ROOK` case continues into the `QUEEN` case, exactly as in the
source. -/
def scoreQuiet (me : Side) (ctx : QuietCtx) (threatenedPieces : Nat)
    (m : QMove) : Int :=
  let toS := m.toSq
  let pt := ctx.pieceTypeAt m.fromSq
  if m.kind = .PROMOTION then -100
  else
    let kingBB := ctx.kingBB me.flip
    let occ := ctx.occ
    let pawnHit : Int := if pawnAttacksSq me toS &&& kingBB ≠ 0 then 10 else 0
    let knightHit : Int := if knightAttacks toS &&& kingBB ≠ 0 then 10 else 0
    let bishopHit : Int := if bishopAttacks toS occ &&& kingBB ≠ 0 then 10 else 0
    let rookHit : Int := if rookAttacks toS occ &&& kingBB ≠ 0 then 10 else 0
    let queenHit : Int := if queenAttacks toS occ &&& kingBB ≠ 0 then 10 else 0
    scoreQuietBase ctx threatenedPieces m +
      (match pt with
       | .PAWN => pawnHit
       | .KNIGHT => knightHit
       | .BISHOP => bishopHit + rookHit + queenHit
       | .ROOK => rookHit + queenHit
       | .QUEEN => queenHit
       | _ => 0)

/-- Whether the moved piece attacks the enemy king from the destination
square *with its own movement pattern* — the claimed condition for the +10
check bonus. -/
def attacksKingFromTo (me : Side) (ctx : QuietCtx) (m : QMove) : Bool :=
  let kingBB := ctx.kingBB me.flip
  match ctx.pieceTypeAt m.fromSq with
  | .PAWN => pawnAttacksSq me m.toSq &&& kingBB ≠ 0
  | .KNIGHT => knightAttacks m.toSq &&& kingBB ≠ 0
  | .BISHOP => bishopAttacks m.toSq ctx.occ &&& kingBB ≠ 0
  | .ROOK => rookAttacks m.toSq ctx.occ &&& kingBB ≠ 0
  | .QUEEN => queenAttacks m.toSq ctx.occ &&& kingBB ≠ 0
  | _ => false

/-- Whether one movement pattern attacks the enemy king from a square. -/
def patternHitsKing (me : Side) (ctx : QuietCtx) (pat : PieceType)
    (toS : Nat) : Bool :=
  let kingBB := ctx.kingBB me.flip
  match pat with
  | .PAWN => pawnAttacksSq me toS &&& kingBB ≠ 0
  | .KNIGHT => knightAttacks toS &&& kingBB ≠ 0
  | .BISHOP => bishopAttacks toS ctx.occ &&& kingBB ≠ 0
  | .ROOK => rookAttacks toS ctx.occ &&& kingBB ≠ 0
  | .QUEEN => queenAttacks toS ctx.occ &&& kingBB ≠ 0
  | _ => false

/-- The attack patterns whose king hits the source's switch actually rewards
for a mover of the given type: the mover's own pattern plus every pattern of
the cases reached through the missing `break`s
(BISHOP falls through ROOK and QUEEN; ROOK falls through QUEEN). -/
def testedPatterns : PieceType → List PieceType
  | .PAWN => [.PAWN]
  | .KNIGHT => [.KNIGHT]
  | .BISHOP => [.BISHOP, .ROOK, .QUEEN]
  | .ROOK => [.ROOK, .QUEEN]
  | .QUEEN => [.QUEEN]
  | _ => []

/-! ## Theorems about `scoreQuiet` (claim C7) -/

/-- A concrete position: white bishop on c1 (square 2), white king on e1
(square 4), black king on d8 (square 59); no threats.  The quiet bishop move
c1–d2 (square 11) puts the bishop on the d-file, which rook- and queen-attacks
the black king along the open file while the bishop itself does not attack
it. -/
def bishopCheckCtx : QuietCtx where
  board := fun s =>
    if s = 2 then some (.White, .BISHOP)
    else if s = 4 then some (.White, .KING)
    else if s = 59 then some (.Black, .KING)
    else none
  threatenedByPawns := 0
  threatenedByMinors := 0
  threatenedByRooks := 0

/-- C7, counterexample: for the non-promotion quiet bishop move c1–d2 in
`bishopCheckCtx`, `scoreQuiet` does *not* equal the base score plus 10 exactly
when the bishop attacks the king from d2 — the fall-through adds +20 (rook
and queen patterns both hit the king on the open d-file) although the bishop
does not attack the king at all. -/
theorem scoreQuiet_check_bonus_claim_false :
    ¬ (scoreQuiet .White bishopCheckCtx 0 ⟨2, 11, .NORMAL⟩ =
        scoreQuietBase bishopCheckCtx 0 ⟨2, 11, .NORMAL⟩ +
          (if attacksKingFromTo .White bishopCheckCtx ⟨2, 11, .NORMAL⟩
            then 10 else 0)) := by
  decide

/-- C7, amended: for every non-promotion quiet move, `scoreQuiet` equals the
base-plus-threat-evasion score plus 10 for *each* pattern among the fall-
through set of the moved piece (pawn: own; knight: own; bishop: bishop, rook
and queen patterns; rook: rook and queen patterns; queen: queen pattern;
king and empty source square: none) that attacks the enemy king from the
destination square. -/
theorem scoreQuiet_check_bonus (me : Side) (ctx : QuietCtx)
    (threatenedPieces : Nat) (m : QMove) (h : m.kind ≠ .PROMOTION) :
    scoreQuiet me ctx threatenedPieces m =
      scoreQuietBase ctx threatenedPieces m +
        10 * ((testedPatterns (ctx.pieceTypeAt m.fromSq)).countP
          (fun pat => patternHitsKing me ctx pat m.toSq)) := by
  unfold scoreQuiet
  rw [if_neg h]
  cases hpt : ctx.pieceTypeAt m.fromSq <;>
    simp only [hpt, testedPatterns, List.countP_cons, List.countP_nil,
      patternHitsKing, decide_eq_true_eq] <;>
    first
      | (split_ifs <;> norm_num)
      | norm_num

/-- C7, amended claim witness: the bishop move of `bishopCheckCtx` scores the
base plus 10 per hitting fall-through pattern. -/
theorem scoreQuiet_check_bonus_witness :
    scoreQuiet .White bishopCheckCtx 0 ⟨2, 11, .NORMAL⟩ =
      scoreQuietBase bishopCheckCtx 0 ⟨2, 11, .NORMAL⟩ +
        10 * ((testedPatterns (bishopCheckCtx.pieceTypeAt 2)).countP
          (fun pat => patternHitsKing .White bishopCheckCtx pat 11)) :=
  scoreQuiet_check_bonus .White bishopCheckCtx 0 ⟨2, 11, .NORMAL⟩ (by decide)

/-! ## movepicker.h : the staged move picker

`MovePicker::enumerate` (movepicker.h:55-173) consumes the position through
`isLegal`, `inCheck`, `isTactical`, `isCapture`, `see`, and the three
category-restricted legal-move generators; the scoring helpers
`scoreTactical`/`scoreQuiet` additionally read board internals.  All of that
is abstracted in `MPPos`: the three generator runs are the move lists they
would feed to the callback, in generation order, and the score helpers are
functions of the move.  `scoreEvasion` (movepicker.h:176-182) is in the
sources and is embedded below.  The `doMove`/`undoMove` member pointers
carried next to each move never influence which moves are yielded and are
dropped.

`std::sort` with the comparator `a.score > b.score` (movepicker.h:74, 99,
148) is modelled by a deterministic insertion sort with the relation
`b.score ≤ a.score` (descending); `std::sort` leaves the order of equal
scores unspecified, so the model fixes one admissible outcome, and every
theorem below depends on the sort only through sortedness or through the
permutation property, or avoids score ties. -/

/-- A scored move (`ScoredMove`, movepicker.h:14-19, minus the member
pointers). -/
abbrev SMove := Move × Int

/-- The slice of the external `Position` that the picker consumes.
`allMoves`, `tacticalMoves` and `quietMoves` are the outputs of
`enumerateLegalMoves<Me, ALL_MOVES / TACTICAL_MOVES / QUIET_MOVES>` in
generation order. -/
structure MPPos where
  isLegal : Move → Bool
  inCheck : Bool
  allMoves : List Move
  tacticalMoves : List Move
  quietMoves : List Move
  isTactical : Move → Bool
  isCapture : Move → Bool
  see : Move → Int → Bool
  scoreTactical : Move → Int
  scoreQuiet : Move → Int

/-- The constructor arguments of `MovePicker` (movepicker.h:31-35):
`refutations = {killer1, killer2, counter}`. -/
structure MPArgs where
  ttMove : Move := MOVE_NONE
  killer1 : Move := MOVE_NONE
  killer2 : Move := MOVE_NONE
  counter : Move := MOVE_NONE

/-- `MovePicker::scoreEvasion` (movepicker.h:176-182): captures score as
tacticals, the rest scores 0. -/
def scoreEvasion (p : MPPos) (m : Move) : Int :=
  if p.isCapture m then p.scoreTactical m else 0

/-- The `std::sort` at movepicker.h:74/99/148: descending by score. -/
def sortByScore (l : List SMove) : List SMove :=
  l.insertionSort (fun a b => b.2 ≤ a.2)

/-- The moves `MovePicker::enumerate` hands to the handler, per stage and in
stage order.  A stage skipped by the control flow (everything after the
evasions when in check, stages 4-9 in QUIESCENCE mode) is the empty list. -/
structure StageOut where
  ttStage : List Move
  evasionStage : List Move
  goodTacticalStage : List Move
  killer1Stage : List Move
  killer2Stage : List Move
  counterStage : List Move
  goodQuietStage : List Move
  badTacticalStage : List Move
  badQuietStage : List Move
deriving DecidableEq, Repr

/-- The stages in the order `enumerate` runs them. -/
def StageOut.stageList (st : StageOut) : List (List Move) :=
  [st.ttStage, st.evasionStage, st.goodTacticalStage, st.killer1Stage,
   st.killer2Stage, st.counterStage, st.goodQuietStage, st.badTacticalStage,
   st.badQuietStage]

/-- The full yield sequence of one `enumerate` call whose handler never
stops. -/
def StageOut.trace (st : StageOut) : List Move :=
  st.stageList.flatten

/-- `MovePicker::enumerate` (movepicker.h:55-173) as a stage computation;
`qmode = true` is the `QUIESCENCE` instantiation, `false` is `MAIN`.  The
contents of every stage are independent of the handler (the handler can only
cut the iteration short), so the stages are computed first and the handler is
threaded over them by `runStages` below. -/
def pick (qmode : Bool) (p : MPPos) (a : MPArgs) : StageOut :=
  -- movepicker.h:57-59 — TT move, if legal in the current position
  let ttS := if p.isLegal a.ttMove then [a.ttMove] else []
  if p.inCheck then
    -- movepicker.h:65-84 — evasions: all legal moves except the TT move,
    -- scored by scoreEvasion, sorted descending; the loop skips the TT move
    -- once more, then the picker terminates.
    let scoredEvas := (p.allMoves.filter (fun m => m != a.ttMove)).map
      (fun m => (m, scoreEvasion p m))
    let evas := ((sortByScore scoredEvas).filter
      (fun sm => sm.1 != a.ttMove)).map Prod.fst
    ⟨ttS, evas, [], [], [], [], [], [], []⟩
  else
    -- movepicker.h:87-101 — tactical generation (skipping the TT move and,
    -- in QUIESCENCE, everything failing see(m, 0)), scored, sorted.
    let scoredTacs := (p.tacticalMoves.filter
      (fun m => m != a.ttMove && (!qmode || p.see m 0))).map
      (fun m => (m, p.scoreTactical m))
    let sortedTacs := sortByScore scoredTacs
    if qmode then
      -- movepicker.h:104-116 — in QUIESCENCE the loop yields everything
      -- (the bad ones were already pruned) and enumerate returns.
      ⟨ttS, [], sortedTacs.map Prod.fst, [], [], [], [], [], []⟩
    else
      -- movepicker.h:104-113 — good tacticals are yielded, tacticals
      -- failing see(m, -50) are compacted (stably) to the buffer front.
      let goodTacs := sortedTacs.filter (fun sm => p.see sm.1 (-50))
      let badTacs := sortedTacs.filter (fun sm => !p.see sm.1 (-50))
      -- movepicker.h:119-131 — killers and counter
      let k1S := if a.killer1 != a.ttMove && !p.isTactical a.killer1 &&
          p.isLegal a.killer1 then [a.killer1] else []
      let k2S := if a.killer2 != a.ttMove && !p.isTactical a.killer2 &&
          p.isLegal a.killer2 then [a.killer2] else []
      let cS := if a.counter != a.ttMove && !p.isTactical a.counter &&
          a.counter != a.killer1 && a.counter != a.killer2 &&
          p.isLegal a.counter then [a.counter] else []
      -- movepicker.h:134-150 — the buffer is truncated to the bad
      -- tacticals, the quiets (skipping TT move and refutations) are scored
      -- and appended, and the WHOLE buffer is sorted (movepicker.h:148
      -- sorts from moves.begin(), bad tacticals included).
      let scoredQuiets := (p.quietMoves.filter
        (fun m => m != a.ttMove &&
          !(a.killer1 == m || a.killer2 == m || a.counter == m))).map
        (fun m => (m, p.scoreQuiet m))
      let sortedBuf := sortByScore (badTacs ++ scoredQuiets)
      -- movepicker.h:153-170 — the good-quiets loop walks the part of the
      -- buffer after the endBadTacticals mark, yielding scores ≥ 0 and
      -- compacting scores < 0; the bad-tacticals loop then yields the part
      -- before the mark; finally the compacted bad quiets.
      let region1 := sortedBuf.take badTacs.length
      let region2 := sortedBuf.drop badTacs.length
      let goodQ := region2.filter (fun sm => !decide (sm.2 < 0))
      let badQ := region2.filter (fun sm => decide (sm.2 < 0))
      ⟨ttS, [], goodTacs.map Prod.fst, k1S, k2S, cS, goodQ.map Prod.fst,
        region1.map Prod.fst, badQ.map Prod.fst⟩

/-- Feed a list of moves to a stateful handler that can stop the
enumeration; returns the final handler state, the continue flag, and the
moves actually handed over. -/
def feed {σ : Type _} (h : σ → Move → σ × Bool) :
    σ → List Move → σ × Bool × List Move
  | s, [] => (s, true, [])
  | s, m :: ms =>
    match h s m with
    | (s', true) =>
      let r := feed h s' ms
      (r.1, r.2.1, m :: r.2.2)
    | (s', false) => (s', false, [m])

/-- Run the stages in order, stopping as soon as the handler stops. -/
def runStages {σ : Type _} (h : σ → Move → σ × Bool) :
    σ → List (List Move) → σ × Bool × List Move
  | s, [] => (s, true, [])
  | s, l :: ls =>
    match feed h s l with
    | (s', true, tr) =>
      let r := runStages h s' ls
      (r.1, r.2.1, tr ++ r.2.2)
    | (s', false, tr) => (s', false, tr)

/-- `MovePicker::enumerate` with an explicit handler: the handler maps its
state and a move to a new state and a continue flag ("stop" signals a beta
cutoff); `enumerate` returns `false` in the middle component iff some
handler call returned stop, and the third component lists the moves the
handler was invoked on, in order. -/
def enumerate (qmode : Bool) (p : MPPos) (a : MPArgs) {σ : Type _}
    (h : σ → Move → σ × Bool) (s : σ) : σ × Bool × List Move :=
  runStages h s (pick qmode p a).stageList

theorem feed_trace_sublist {σ : Type _} (h : σ → Move → σ × Bool) (s : σ)
    (l : List Move) : List.Sublist (feed h s l).2.2 l := by
  induction l generalizing s with
  | nil => simp [feed]
  | cons m ms ih =>
    rw [feed]
    rcases hr : h s m with ⟨s', b⟩
    cases b
    · simp
    · simpa using ih s'

theorem runStages_trace_sublist {σ : Type _} (h : σ → Move → σ × Bool)
    (s : σ) (ls : List (List Move)) :
    List.Sublist (runStages h s ls).2.2 ls.flatten := by
  induction ls generalizing s with
  | nil => simp [runStages]
  | cons l ls ih =>
    rw [runStages]
    rcases hr : feed h s l with ⟨s', b, tr⟩
    have htr : List.Sublist tr l := by
      have := feed_trace_sublist h s l
      rw [hr] at this
      exact this
    cases b
    · simpa using htr.trans (List.sublist_append_left l ls.flatten)
    · simpa using htr.append (ih s')

/-! ### Generic facts about the sorted scored lists -/

theorem mem_sortByScore {sm : SMove} {l : List SMove} :
    sm ∈ sortByScore l ↔ sm ∈ l :=
  (List.perm_insertionSort _ l).mem_iff

theorem sortByScore_perm (l : List SMove) : List.Perm (sortByScore l) l :=
  List.perm_insertionSort _ l

theorem map_fst_pairs (L : List Move) (f : Move → Int) :
    (L.map (fun m => (m, f m))).map Prod.fst = L := by
  induction L with
  | nil => rfl
  | cons m t ih => simpa using ih

theorem sort_map_fst_perm (l : List SMove) :
    List.Perm ((sortByScore l).map Prod.fst) (l.map Prod.fst) :=
  (sortByScore_perm l).map _

theorem filterSplit_map_fst_perm (q : SMove → Bool) (l : List SMove) :
    List.Perm
      ((l.filter q).map Prod.fst ++ (l.filter (fun x => !q x)).map Prod.fst)
      (l.map Prod.fst) := by
  rw [← List.map_append]
  exact (List.filter_append_perm q l).map _

/-- Membership helper for a one-element conditional stage. -/
theorem mem_iteSingleton {c : Bool} {y x : Move} :
    x ∈ (if c then [y] else []) ↔ c = true ∧ x = y := by
  cases c <;> simp

/-- Membership helper for a one-element conditional Finset. -/
theorem mem_iteFinsetSingleton {c : Bool} {y x : Move} :
    x ∈ (if c then ({y} : Finset Move) else ∅) ↔ c = true ∧ x = y := by
  cases c <;> simp

/-- Membership in the moves of a sorted, post-filtered, scored list built
from the generation list `L`. -/
theorem mem_sorted_scored {L : List Move} {f : Move → Int} {q : SMove → Bool}
    {x : Move} :
    x ∈ ((sortByScore (L.map (fun m => (m, f m)))).filter q).map Prod.fst ↔
      x ∈ L ∧ q (x, f x) = true := by
  constructor
  · intro hx
    rcases List.mem_map.mp hx with ⟨sm, hsm, rfl⟩
    rcases List.mem_filter.mp hsm with ⟨hmem, hq⟩
    rcases List.mem_map.mp (mem_sortByScore.mp hmem) with ⟨m, hm, rfl⟩
    exact ⟨hm, hq⟩
  · rintro ⟨hx, hq⟩
    exact List.mem_map.mpr ⟨(x, f x),
      List.mem_filter.mpr
        ⟨mem_sortByScore.mpr (List.mem_map.mpr ⟨x, hx, rfl⟩), hq⟩, rfl⟩

/-- Membership in the moves of a sorted scored list (no post-filter). -/
theorem mem_sorted_scored' {L : List Move} {f : Move → Int} {x : Move} :
    x ∈ (sortByScore (L.map (fun m => (m, f m)))).map Prod.fst ↔ x ∈ L := by
  rw [(sort_map_fst_perm _).mem_iff, map_fst_pairs]

/-! ## Theorems about the QUIESCENCE yield set (claim C8) -/

/-- C8: in QUIESCENCE mode the set of yielded moves is exactly the TT move
if legal, together with all legal evasions when in check, or with the
tactical moves passing `see(move, 0)` when not in check (those failing it are
discarded, not deferred), and the killer, counter, quiet, bad-tactical and
bad-quiet stages never run.  The hypotheses state the external generator
contract: generated moves are legal. -/
theorem quiescence_yields (p : MPPos) (a : MPArgs)
    (hLegalAll : ∀ m ∈ p.allMoves, p.isLegal m = true)
    (hLegalTac : ∀ m ∈ p.tacticalMoves, p.isLegal m = true) :
    (p.inCheck = true →
      ((pick true p a).trace).toFinset =
        (if p.isLegal a.ttMove then {a.ttMove} else ∅) ∪
          p.allMoves.toFinset) ∧
    (p.inCheck = false →
      ((pick true p a).trace).toFinset =
        (if p.isLegal a.ttMove then {a.ttMove} else ∅) ∪
          (p.tacticalMoves.filter (fun m => p.see m 0)).toFinset) ∧
    (pick true p a).killer1Stage = [] ∧
    (pick true p a).killer2Stage = [] ∧
    (pick true p a).counterStage = [] ∧
    (pick true p a).goodQuietStage = [] ∧
    (pick true p a).badTacticalStage = [] ∧
    (pick true p a).badQuietStage = [] := by
  cases hchk : p.inCheck
  · refine ⟨by simp [hchk], fun _ => ?_, by simp [pick, hchk],
      by simp [pick, hchk], by simp [pick, hchk], by simp [pick, hchk],
      by simp [pick, hchk], by simp [pick, hchk]⟩
    have htr : (pick true p a).trace =
        (if p.isLegal a.ttMove then [a.ttMove] else []) ++
          (sortByScore ((p.tacticalMoves.filter
            (fun m => m != a.ttMove && p.see m 0)).map
            (fun m => (m, p.scoreTactical m)))).map Prod.fst := by
      rw [pick]
      rw [hchk]
      simp [StageOut.trace, StageOut.stageList]
    ext x
    rw [htr]
    rw [List.mem_toFinset, List.mem_append, mem_iteSingleton]
    rw [mem_sorted_scored' (L := p.tacticalMoves.filter
      (fun m => m != a.ttMove && p.see m 0))]
    rw [Finset.mem_union, mem_iteFinsetSingleton, List.mem_toFinset,
      List.mem_filter, List.mem_filter]
    simp only [Bool.and_eq_true, bne_iff_ne, ne_eq]
    constructor
    · rintro (h | ⟨hm, hne, hsee⟩)
      · exact Or.inl h
      · exact Or.inr ⟨hm, hsee⟩
    · rintro (h | ⟨hm, hsee⟩)
      · exact Or.inl h
      · by_cases hxt : x = a.ttMove
        · refine Or.inl ⟨?_, hxt⟩
          have := hLegalTac x hm
          rwa [hxt] at this
        · exact Or.inr ⟨hm, hxt, hsee⟩
  · refine ⟨fun _ => ?_, by simp [hchk], by simp [pick, hchk],
      by simp [pick, hchk], by simp [pick, hchk], by simp [pick, hchk],
      by simp [pick, hchk], by simp [pick, hchk]⟩
    have htr : (pick true p a).trace =
        (if p.isLegal a.ttMove then [a.ttMove] else []) ++
          ((sortByScore ((p.allMoves.filter (fun m => m != a.ttMove)).map
            (fun m => (m, scoreEvasion p m)))).filter
            (fun sm => sm.1 != a.ttMove)).map Prod.fst := by
      rw [pick]
      rw [hchk]
      simp [StageOut.trace, StageOut.stageList]
    ext x
    rw [htr]
    rw [List.mem_toFinset, List.mem_append, mem_iteSingleton]
    rw [mem_sorted_scored (L := p.allMoves.filter (fun m => m != a.ttMove))]
    rw [Finset.mem_union, mem_iteFinsetSingleton, List.mem_toFinset,
      List.mem_filter]
    simp only [bne_iff_ne, ne_eq]
    constructor
    · rintro (h | ⟨⟨hm, hne⟩, -⟩)
      · exact Or.inl h
      · exact Or.inr hm
    · rintro (h | hm)
      · exact Or.inl h
      · by_cases hxt : x = a.ttMove
        · refine Or.inl ⟨?_, hxt⟩
          have := hLegalAll x hm
          rwa [hxt] at this
        · exact Or.inr ⟨⟨hm, hxt⟩, hxt⟩

/-- A small legal-move universe for the C8 witness: TT move 9 (a quiet),
tacticals 20 (winning, `see(·,0)` holds) and 21 (losing, `see(·,0)` fails),
not in check. -/
def qDemoPos : MPPos where
  isLegal := fun m => m == 9 || m == 20 || m == 21
  inCheck := false
  allMoves := [20, 21, 9]
  tacticalMoves := [20, 21]
  quietMoves := [9]
  isTactical := fun m => m == 20 || m == 21
  isCapture := fun m => m == 20 || m == 21
  see := fun m _ => m == 20
  scoreTactical := fun _ => 0
  scoreQuiet := fun _ => 0

/-- C8, witness: with TT move 9 and the tacticals 20/21 of `qDemoPos`, the
QUIESCENCE picker yields exactly `{9, 20}`. -/
theorem quiescence_yields_witness :
    ((pick true qDemoPos ⟨9, 0, 0, 0⟩).trace).toFinset =
      (if qDemoPos.isLegal 9 then {9} else ∅) ∪
        (qDemoPos.tacticalMoves.filter (fun m => qDemoPos.see m 0)).toFinset :=
  (quiescence_yields qDemoPos ⟨9, 0, 0, 0⟩ (by decide) (by decide)).2.1 rfl

/-! ## The buffer-sharing slip in the quiet stage (claim C2)

In MAIN mode the quiet stage reuses the buffer whose front still holds the
deferred bad tacticals (movepicker.h:134), but the sort at movepicker.h:148
runs from `moves.begin()` — over bad tacticals and quiets together.  When a
quiet outscores a deferred tactical they swap regions: the quiet is then
emitted by the bad-tacticals loop and the tactical by the good-quiets loop,
contradicting both the specified stage semantics and the code's own comments
(`// Keep only bad tacticals`, `// Good quiets`, `// Bad tacticals`). -/

/-- A picker input realizing the swap: one tactical move 20 deferred by
`see(20, -50) = false` with MVV-LVA score 95 (a typical losing
queen-takes-defended-pawn score), and one quiet move 30 with `scoreQuiet`
1005 (a typical threatened-queen-escape bonus of +1000 plus base); no TT
move, killers or counter. -/
def stageMixPos : MPPos where
  isLegal := fun _ => false
  inCheck := false
  allMoves := []
  tacticalMoves := [20]
  quietMoves := [30]
  isTactical := fun m => m == 20
  isCapture := fun m => m == 20
  see := fun _ _ => false
  scoreTactical := fun _ => 95
  scoreQuiet := fun _ => 1005

/-- C2: at `stageMixPos` the good-quiets stage emits the deferred *tactical*
move 20 and the bad-tacticals stage emits the *quiet* move 30 — the claim
("no quiet move is ever emitted during the bad-tacticals stage", "the
subsequent bad-tacticals stage yields exactly the deferred tacticals") fails
on the code because movepicker.h:148 sorts the whole buffer. -/
theorem bad_tactical_stage_emits_quiet :
    (pick false stageMixPos {}).goodQuietStage = [20] ∧
    (pick false stageMixPos {}).badTacticalStage = [30] ∧
    stageMixPos.tacticalMoves = [20] ∧
    stageMixPos.quietMoves = [30] ∧
    stageMixPos.see 20 (-50) = false ∧
    stageMixPos.scoreQuiet 30 = 1005 ∧ 0 ≤ stageMixPos.scoreQuiet 30 := by
  decide

/-! ## No move is yielded twice (claim C1)

Named views of the intermediate lists of the MAIN path of `pick`, used to
state the membership and distinctness facts of the proof below; each is
proved equal to the corresponding part of `pick` by unfolding. -/

/-- The sorted scored tacticals of the MAIN path (TT move excluded). -/
def mainTacsSorted (p : MPPos) (a : MPArgs) : List SMove :=
  sortByScore ((p.tacticalMoves.filter (fun m => m != a.ttMove)).map
    (fun m => (m, p.scoreTactical m)))

/-- The tacticals deferred by `see(move, -50)`. -/
def mainBadTacs (p : MPPos) (a : MPArgs) : List SMove :=
  (mainTacsSorted p a).filter (fun sm => !p.see sm.1 (-50))

/-- The tacticals yielded by the good-tacticals loop. -/
def mainGoodTacs (p : MPPos) (a : MPArgs) : List SMove :=
  (mainTacsSorted p a).filter (fun sm => p.see sm.1 (-50))

/-- The generated quiets that survive the TT-move and refutation skips. -/
def mainQuiets (p : MPPos) (a : MPArgs) : List Move :=
  p.quietMoves.filter (fun m => m != a.ttMove &&
    !(a.killer1 == m || a.killer2 == m || a.counter == m))

/-- The re-sorted buffer of the quiet stage: deferred bad tacticals plus the
scored quiets, sorted together (movepicker.h:148). -/
def mainBuf (p : MPPos) (a : MPArgs) : List SMove :=
  sortByScore (mainBadTacs p a ++
    (mainQuiets p a).map (fun m => (m, p.scoreQuiet m)))

/-- The buffer region before the `endBadTacticals` mark. -/
def mainR1 (p : MPPos) (a : MPArgs) : List SMove :=
  (mainBuf p a).take (mainBadTacs p a).length

/-- The buffer region the good-quiets loop walks. -/
def mainR2 (p : MPPos) (a : MPArgs) : List SMove :=
  (mainBuf p a).drop (mainBadTacs p a).length

/-- The entries of the walked region yielded by the good-quiets loop. -/
def mainGQ (p : MPPos) (a : MPArgs) : List SMove :=
  (mainR2 p a).filter (fun sm => !decide (sm.2 < 0))

/-- The entries of the walked region deferred to the bad-quiets loop. -/
def mainBQ (p : MPPos) (a : MPArgs) : List SMove :=
  (mainR2 p a).filter (fun sm => decide (sm.2 < 0))

theorem nodup_sorted_scored {L : List Move} {f : Move → Int}
    {q : SMove → Bool} (h : L.Nodup) :
    (((sortByScore (L.map (fun m => (m, f m)))).filter q).map
      Prod.fst).Nodup := by
  have h1 : List.Perm
      (((sortByScore (L.map (fun m => (m, f m)))).filter q).map Prod.fst)
      (((L.map (fun m => (m, f m))).filter q).map Prod.fst) :=
    ((sortByScore_perm _).filter q).map _
  have h2 : List.Sublist
      (((L.map (fun m => (m, f m))).filter q).map Prod.fst)
      ((L.map (fun m => (m, f m))).map Prod.fst) :=
    (List.filter_sublist _).map _
  rw [map_fst_pairs] at h2
  exact h1.symm.nodup (h2.nodup h)

theorem nodup_sorted_scored' {L : List Move} {f : Move → Int}
    (h : L.Nodup) :
    ((sortByScore (L.map (fun m => (m, f m)))).map Prod.fst).Nodup := by
  have h1 := sort_map_fst_perm (L.map (fun m => (m, f m)))
  rw [map_fst_pairs] at h1
  exact h1.symm.nodup h

/-- C1, core: the full yield sequence of one `pick` run has no duplicate,
for either mode, under the external generation contract (each generation
list is duplicate-free, tactical generation produces `isTactical` moves,
quiet generation produces non-`isTactical` moves, `MOVE_NONE` is never
legal) and the constructor precondition `killer1 != killer2 || killer1 ==
MOVE_NONE` (movepicker.h:34). -/
theorem pick_trace_nodup (qmode : Bool) (p : MPPos) (a : MPArgs)
    (hTacN : p.tacticalMoves.Nodup) (hQuietN : p.quietMoves.Nodup)
    (hAllN : p.allMoves.Nodup)
    (hTacT : ∀ m ∈ p.tacticalMoves, p.isTactical m = true)
    (hQuietT : ∀ m ∈ p.quietMoves, p.isTactical m = false)
    (hNone : p.isLegal MOVE_NONE = false)
    (hK : a.killer1 ≠ a.killer2 ∨ a.killer1 = MOVE_NONE) :
    ((pick qmode p a).trace).Nodup := by
  cases hchk : p.inCheck
  · -- not in check
    cases qmode
    · -- MAIN
      have htr : (pick false p a).trace =
          (if p.isLegal a.ttMove then [a.ttMove] else []) ++
          ((mainGoodTacs p a).map Prod.fst ++
          ((if a.killer1 != a.ttMove && !p.isTactical a.killer1 &&
              p.isLegal a.killer1 then [a.killer1] else []) ++
          ((if a.killer2 != a.ttMove && !p.isTactical a.killer2 &&
              p.isLegal a.killer2 then [a.killer2] else []) ++
          ((if a.counter != a.ttMove && !p.isTactical a.counter &&
              a.counter != a.killer1 && a.counter != a.killer2 &&
              p.isLegal a.counter then [a.counter] else []) ++
          ((mainGQ p a).map Prod.fst ++
          ((mainR1 p a).map Prod.fst ++
          (mainBQ p a).map Prod.fst)))))) := by
        rw [pick, hchk]
        simp [StageOut.trace, StageOut.stageList, mainGoodTacs, mainBadTacs,
          mainTacsSorted, mainQuiets, mainBuf, mainR1, mainR2, mainGQ,
          mainBQ]
      -- membership characterizations
      have hmGood : ∀ x ∈ (mainGoodTacs p a).map Prod.fst,
          x ∈ p.tacticalMoves ∧ x ≠ a.ttMove := by
        intro x hx
        rcases mem_sorted_scored.mp hx with ⟨hmem, -⟩
        rcases List.mem_filter.mp hmem with ⟨hmem', hne⟩
        exact ⟨hmem', by simpa using hne⟩
      have hmBad : ∀ x ∈ (mainBadTacs p a).map Prod.fst,
          x ∈ p.tacticalMoves ∧ x ≠ a.ttMove := by
        intro x hx
        rcases mem_sorted_scored.mp hx with ⟨hmem, -⟩
        rcases List.mem_filter.mp hmem with ⟨hmem', hne⟩
        exact ⟨hmem', by simpa using hne⟩
      have hmQF : ∀ x ∈ mainQuiets p a,
          x ∈ p.quietMoves ∧ x ≠ a.ttMove ∧ x ≠ a.killer1 ∧
            x ≠ a.killer2 ∧ x ≠ a.counter := by
        intro x hx
        rcases List.mem_filter.mp hx with ⟨hmem, hcond⟩
        simp only [Bool.and_eq_true, bne_iff_ne, ne_eq, Bool.not_eq_true',
          Bool.or_eq_false_iff, beq_eq_false_iff_ne] at hcond
        exact ⟨hmem, hcond.1, fun h => hcond.2.1.1 h.symm,
          fun h => hcond.2.1.2 h.symm, fun h => hcond.2.2 h.symm⟩
      -- the buffer moves and their split
      have hBufPerm : List.Perm ((mainBuf p a).map Prod.fst)
          ((mainBadTacs p a).map Prod.fst ++ mainQuiets p a) := by
        have h1 := (sortByScore_perm (mainBadTacs p a ++
          (mainQuiets p a).map (fun m => (m, p.scoreQuiet m)))).map Prod.fst
        rw [List.map_append, map_fst_pairs] at h1
        exact h1
      have hmBuf : ∀ x ∈ (mainBuf p a).map Prod.fst,
          x ∈ (mainBadTacs p a).map Prod.fst ∨ x ∈ mainQuiets p a := by
        intro x hx
        have := hBufPerm.mem_iff.mp hx
        simpa using this
      -- nodup and disjointness of the tactical split
      have hGoodBad : ((mainGoodTacs p a).map Prod.fst ++
          (mainBadTacs p a).map Prod.fst).Nodup := by
        have hperm : List.Perm ((mainGoodTacs p a).map Prod.fst ++
            (mainBadTacs p a).map Prod.fst)
            ((mainTacsSorted p a).map Prod.fst) :=
          filterSplit_map_fst_perm _ _
        have hST : ((mainTacsSorted p a).map Prod.fst).Nodup :=
          nodup_sorted_scored' (hTacN.filter _)
        exact hperm.symm.nodup hST
      obtain ⟨hnGoodM, hnBadM, hdGoodBad⟩ := List.nodup_append.mp hGoodBad
      -- nodup of the buffer moves
      have hnQF : (mainQuiets p a).Nodup := hQuietN.filter _
      have hdBadQF : List.Disjoint ((mainBadTacs p a).map Prod.fst)
          (mainQuiets p a) := by
        intro x hx1 hx2
        have h1 := hTacT x (hmBad x hx1).1
        have h2 := hQuietT x (hmQF x hx2).1
        rw [h1] at h2
        simp at h2
      have hnBufM : ((mainBuf p a).map Prod.fst).Nodup :=
        hBufPerm.symm.nodup
          (List.nodup_append.mpr ⟨hnBadM, hnQF, hdBadQF⟩)
      -- the take/drop split of the buffer
      have hsplit : (mainR1 p a).map Prod.fst ++ (mainR2 p a).map Prod.fst =
          (mainBuf p a).map Prod.fst := by
        rw [← List.map_append]
        rw [mainR1, mainR2, List.take_append_drop]
      have hR12 : ((mainR1 p a).map Prod.fst ++
          (mainR2 p a).map Prod.fst).Nodup := by
        rw [hsplit]; exact hnBufM
      obtain ⟨hnR1, hnR2, hdR12⟩ := List.nodup_append.mp hR12
      -- the good/bad quiet split of the walked region
      have hqperm : List.Perm ((mainBQ p a).map Prod.fst ++
          (mainGQ p a).map Prod.fst) ((mainR2 p a).map Prod.fst) := by
        rw [← List.map_append]
        exact (List.filter_append_perm _ _).map _
      have hBQGQ : ((mainBQ p a).map Prod.fst ++
          (mainGQ p a).map Prod.fst).Nodup := hqperm.symm.nodup hnR2
      obtain ⟨hnBQ, hnGQ, hdBQGQ⟩ := List.nodup_append.mp hBQGQ
      have hsub6 : List.Sublist ((mainGQ p a).map Prod.fst)
          ((mainR2 p a).map Prod.fst) := (List.filter_sublist _).map _
      have hsub8 : List.Sublist ((mainBQ p a).map Prod.fst)
          ((mainR2 p a).map Prod.fst) := (List.filter_sublist _).map _
      have hsub7 : List.Sublist ((mainR1 p a).map Prod.fst)
          ((mainBuf p a).map Prod.fst) := by
        rw [← hsplit]; exact List.sublist_append_left _ _
      have hsub6' : List.Sublist ((mainGQ p a).map Prod.fst)
          ((mainBuf p a).map Prod.fst) := by
        rw [← hsplit]
        exact hsub6.trans (List.sublist_append_right _ _)
      have hsub8' : List.Sublist ((mainBQ p a).map Prod.fst)
          ((mainBuf p a).map Prod.fst) := by
        rw [← hsplit]
        exact hsub8.trans (List.sublist_append_right _ _)
      -- membership in the killer and counter stages
      have hm0 : ∀ x ∈ (if p.isLegal a.ttMove then [a.ttMove] else []),
          x = a.ttMove := by
        intro x hx
        exact (mem_iteSingleton.mp hx).2
      have hm3 : ∀ x ∈ (if a.killer1 != a.ttMove && !p.isTactical a.killer1 &&
          p.isLegal a.killer1 then [a.killer1] else []),
          x = a.killer1 ∧ a.killer1 ≠ a.ttMove ∧
            p.isTactical a.killer1 = false ∧ p.isLegal a.killer1 = true := by
        intro x hx
        rcases mem_iteSingleton.mp hx with ⟨hc, rfl⟩
        simp only [Bool.and_eq_true, bne_iff_ne, Bool.not_eq_true'] at hc
        exact ⟨rfl, hc.1.1, hc.1.2, hc.2⟩
      have hm4 : ∀ x ∈ (if a.killer2 != a.ttMove && !p.isTactical a.killer2 &&
          p.isLegal a.killer2 then [a.killer2] else []),
          x = a.killer2 ∧ a.killer2 ≠ a.ttMove ∧
            p.isTactical a.killer2 = false ∧ p.isLegal a.killer2 = true := by
        intro x hx
        rcases mem_iteSingleton.mp hx with ⟨hc, rfl⟩
        simp only [Bool.and_eq_true, bne_iff_ne, Bool.not_eq_true'] at hc
        exact ⟨rfl, hc.1.1, hc.1.2, hc.2⟩
      have hm5 : ∀ x ∈ (if a.counter != a.ttMove && !p.isTactical a.counter &&
          a.counter != a.killer1 && a.counter != a.killer2 &&
          p.isLegal a.counter then [a.counter] else []),
          x = a.counter ∧ a.counter ≠ a.ttMove ∧
            p.isTactical a.counter = false ∧ a.counter ≠ a.killer1 ∧
            a.counter ≠ a.killer2 ∧ p.isLegal a.counter = true := by
        intro x hx
        rcases mem_iteSingleton.mp hx with ⟨hc, rfl⟩
        simp only [Bool.and_eq_true, bne_iff_ne, Bool.not_eq_true'] at hc
        exact ⟨rfl, hc.1.1.1.1, hc.1.1.1.2, hc.1.1.2, hc.1.2, hc.2⟩
      -- a move of the buffer is never a TT move, killer or counter and its
      -- tactical classification is decided by its origin
      have hmBuf6 : ∀ x ∈ (mainGQ p a).map Prod.fst,
          x ∈ (mainBadTacs p a).map Prod.fst ∨ x ∈ mainQuiets p a :=
        fun x hx => hmBuf x (hsub6'.subset hx)
      have hmBuf7 : ∀ x ∈ (mainR1 p a).map Prod.fst,
          x ∈ (mainBadTacs p a).map Prod.fst ∨ x ∈ mainQuiets p a :=
        fun x hx => hmBuf x (hsub7.subset hx)
      have hmBuf8 : ∀ x ∈ (mainBQ p a).map Prod.fst,
          x ∈ (mainBadTacs p a).map Prod.fst ∨ x ∈ mainQuiets p a :=
        fun x hx => hmBuf x (hsub8'.subset hx)
      -- generic disjointness of a stage against the buffer-backed stages
      have hdTT : ∀ (T : List Move),
          (∀ x ∈ T, x ∈ (mainBadTacs p a).map Prod.fst ∨ x ∈ mainQuiets p a) →
          List.Disjoint (if p.isLegal a.ttMove then [a.ttMove] else []) T := by
        intro T hT x hx1 hx2
        have hxt := hm0 x hx1
        rcases hT x hx2 with hb | hq
        · exact (hmBad x hb).2 (hxt ▸ rfl)
        · exact (hmQF x hq).2.1 (hxt ▸ rfl)
      have hdGoodBuf : ∀ (T : List Move),
          (∀ x ∈ T, x ∈ (mainBadTacs p a).map Prod.fst ∨ x ∈ mainQuiets p a) →
          List.Disjoint ((mainGoodTacs p a).map Prod.fst) T := by
        intro T hT x hx1 hx2
        rcases hT x hx2 with hb | hq
        · exact hdGoodBad hx1 hb
        · have h1 := hTacT x (hmGood x hx1).1
          have h2 := hQuietT x (hmQF x hq).1
          rw [h1] at h2
          simp at h2
      have hdK : ∀ (k : Move) (K T : List Move),
          (∀ x ∈ K, x = k ∧ p.isTactical k = false) →
          (∀ x ∈ T, x ∈ (mainBadTacs p a).map Prod.fst ∨ x ∈ mainQuiets p a) →
          (∀ x ∈ mainQuiets p a, x ≠ k) →
          List.Disjoint K T := by
        intro k K T hKc hT hQk x hx1 hx2
        rcases hKc x hx1 with ⟨rfl, hkt⟩
        rcases hT x hx2 with hb | hq
        · have h1 := hTacT x (hmBad x hb).1
          rw [hkt] at h1
          simp at h1
        · exact hQk x hq rfl
      rw [htr]
      rw [List.nodup_append]
      refine ⟨?_, ?_, ?_⟩
      · cases hleg : p.isLegal a.ttMove <;> simp [hleg]
      · rw [List.nodup_append]
        refine ⟨hnGoodM, ?_, ?_⟩
        · rw [List.nodup_append]
          refine ⟨?_, ?_, ?_⟩
          · split <;> simp
          · rw [List.nodup_append]
            refine ⟨?_, ?_, ?_⟩
            · split <;> simp
            · rw [List.nodup_append]
              refine ⟨?_, ?_, ?_⟩
              · split <;> simp
              · rw [List.nodup_append]
                refine ⟨hnGQ, ?_, ?_⟩
                · rw [List.nodup_append]
                  refine ⟨hnR1, hnBQ, ?_⟩
                  · -- R1 vs BQ
                    intro x hx1 hx2
                    exact hdR12 hx1 (hsub8.subset hx2)
                · -- GQ vs R1 ++ BQ
                  simp only [List.disjoint_append_right]
                  constructor
                  · intro x hx1 hx2
                    exact hdR12 hx2 (hsub6.subset hx1)
                  · intro x hx1 hx2
                    exact hdBQGQ hx2 hx1
              · -- counter vs GQ ++ R1 ++ BQ
                simp only [List.disjoint_append_right]
                refine ⟨?_, ?_, ?_⟩ <;>
                  exact hdK a.counter _ _
                    (fun x hx => ⟨(hm5 x hx).1, (hm5 x hx).2.2.1⟩)
                    (by first
                      | exact hmBuf6
                      | exact hmBuf7
                      | exact hmBuf8)
                    (fun x hx => fun h => (hmQF x hx).2.2.2.2 h)
            · -- killer2 vs counter ++ GQ ++ R1 ++ BQ
              simp only [List.disjoint_append_right]
              refine ⟨?_, ?_, ?_, ?_⟩
              · intro x hx1 hx2
                exact (hm5 x hx2).2.2.2.2.1 ((hm4 x hx1).1 ▸ (hm5 x hx2).1 ▸ rfl)
              all_goals
                exact hdK a.killer2 _ _
                  (fun x hx => ⟨(hm4 x hx).1, (hm4 x hx).2.2.1⟩)
                  (by first
                    | exact hmBuf6
                    | exact hmBuf7
                    | exact hmBuf8)
                  (fun x hx => fun h => (hmQF x hx).2.2.2.1 h)
          · -- killer1 vs killer2 ++ counter ++ GQ ++ R1 ++ BQ
            simp only [List.disjoint_append_right]
            refine ⟨?_, ?_, ?_, ?_, ?_⟩
            · -- killer1 vs killer2
              intro x hx1 hx2
              rcases hm3 x hx1 with ⟨h1, -, -, hleg1⟩
              rcases hm4 x hx2 with ⟨h2, -, -, hleg2⟩
              rcases hK with hne | h0
              · exact hne (h1 ▸ h2 ▸ rfl)
              · rw [h0] at hleg1
                rw [hNone] at hleg1
                simp at hleg1
            · -- killer1 vs counter
              intro x hx1 hx2
              exact (hm5 x hx2).2.2.2.1 ((hm3 x hx1).1 ▸ (hm5 x hx2).1 ▸ rfl)
            all_goals
              exact hdK a.killer1 _ _
                (fun x hx => ⟨(hm3 x hx).1, (hm3 x hx).2.2.1⟩)
                (by first
                  | exact hmBuf6
                  | exact hmBuf7
                  | exact hmBuf8)
                (fun x hx => fun h => (hmQF x hx).2.2.1 h)
        · -- good tacticals vs everything after them
          simp only [List.disjoint_append_right]
          refine ⟨?_, ?_, ?_, ?_, ?_, ?_⟩
          · intro x hx1 hx2
            rcases hm3 x hx2 with ⟨heq, -, hkt, -⟩
            have h1 := hTacT x (hmGood x hx1).1
            rw [heq, hkt] at h1
            simp at h1
          · intro x hx1 hx2
            rcases hm4 x hx2 with ⟨heq, -, hkt, -⟩
            have h1 := hTacT x (hmGood x hx1).1
            rw [heq, hkt] at h1
            simp at h1
          · intro x hx1 hx2
            rcases hm5 x hx2 with ⟨heq, -, hkt, -, -, -⟩
            have h1 := hTacT x (hmGood x hx1).1
            rw [heq, hkt] at h1
            simp at h1
          · exact hdGoodBuf _ hmBuf6
          · exact hdGoodBuf _ hmBuf7
          · exact hdGoodBuf _ hmBuf8
      · -- TT stage vs everything after it
        simp only [List.disjoint_append_right]
        refine ⟨?_, ?_, ?_, ?_, ?_, ?_, ?_⟩
        · intro x hx1 hx2
          exact (hmGood x hx2).2 (hm0 x hx1 ▸ rfl)
        · intro x hx1 hx2
          exact (hm3 x hx2).2.1 ((hm3 x hx2).1 ▸ hm0 x hx1 ▸ rfl)
        · intro x hx1 hx2
          exact (hm4 x hx2).2.1 ((hm4 x hx2).1 ▸ hm0 x hx1 ▸ rfl)
        · intro x hx1 hx2
          exact (hm5 x hx2).2.1 ((hm5 x hx2).1 ▸ hm0 x hx1 ▸ rfl)
        · exact hdTT _ hmBuf6
        · exact hdTT _ hmBuf7
        · exact hdTT _ hmBuf8
    · -- QUIESCENCE, not in check
      have htr : (pick true p a).trace =
          (if p.isLegal a.ttMove then [a.ttMove] else []) ++
            (sortByScore ((p.tacticalMoves.filter
              (fun m => m != a.ttMove && p.see m 0)).map
              (fun m => (m, p.scoreTactical m)))).map Prod.fst := by
        rw [pick, hchk]
        simp [StageOut.trace, StageOut.stageList]
      rw [htr, List.nodup_append]
      refine ⟨?_, nodup_sorted_scored' (hTacN.filter _), ?_⟩
      · cases hleg : p.isLegal a.ttMove <;> simp [hleg]
      · intro x hx1 hx2
        rcases mem_iteSingleton.mp hx1 with ⟨-, rfl⟩
        have hx := mem_sorted_scored'.mp hx2
        rcases List.mem_filter.mp hx with ⟨-, hq⟩
        simp at hq
  · -- in check: TT move then the evasions, equal for both modes
    have htr : (pick qmode p a).trace =
        (if p.isLegal a.ttMove then [a.ttMove] else []) ++
          ((sortByScore ((p.allMoves.filter (fun m => m != a.ttMove)).map
            (fun m => (m, scoreEvasion p m)))).filter
            (fun sm => sm.1 != a.ttMove)).map Prod.fst := by
      rw [pick, hchk]
      simp [StageOut.trace, StageOut.stageList]
    rw [htr, List.nodup_append]
    refine ⟨?_, nodup_sorted_scored (hAllN.filter _), ?_⟩
    · cases hleg : p.isLegal a.ttMove <;> simp [hleg]
    · intro x hx1 hx2
      rcases mem_iteSingleton.mp hx1 with ⟨-, rfl⟩
      rcases mem_sorted_scored.mp hx2 with ⟨-, hq⟩
      simp at hq

/-- C1: for every position satisfying the external generation contract, in
either mode and for every TT move, killers subject to the constructor
precondition, counter, handler and handler start state, a single
`enumerate` call invokes the handler at most once per distinct move: the
list of moves handed to the handler has no duplicate. -/
theorem enumerate_no_duplicate (qmode : Bool) (p : MPPos) (a : MPArgs)
    {σ : Type _} (h : σ → Move → σ × Bool) (s : σ)
    (hTacN : p.tacticalMoves.Nodup) (hQuietN : p.quietMoves.Nodup)
    (hAllN : p.allMoves.Nodup)
    (hTacT : ∀ m ∈ p.tacticalMoves, p.isTactical m = true)
    (hQuietT : ∀ m ∈ p.quietMoves, p.isTactical m = false)
    (hNone : p.isLegal MOVE_NONE = false)
    (hK : a.killer1 ≠ a.killer2 ∨ a.killer1 = MOVE_NONE) :
    ((enumerate qmode p a h s).2.2).Nodup := by
  have hsub : List.Sublist (enumerate qmode p a h s).2.2
      ((pick qmode p a).stageList.flatten) :=
    runStages_trace_sublist h s (pick qmode p a).stageList
  exact hsub.nodup
    (pick_trace_nodup qmode p a hTacN hQuietN hAllN hTacT hQuietT hNone hK)

/-- C1, witness: on `qDemoPos` in MAIN mode with TT move 9 and no killers or
counter, the yielded move list of a run with an always-continue handler is
duplicate-free. -/
theorem enumerate_no_duplicate_witness :
    ((enumerate false qDemoPos ⟨9, 0, 0, 0⟩
      (fun (s : Unit) _ => (s, true)) ()).2.2).Nodup :=
  enumerate_no_duplicate false qDemoPos ⟨9, 0, 0, 0⟩ _ ()
    (by decide) (by decide) (by decide) (by decide) (by decide) (by decide)
    (Or.inr rfl)

end BabChess
